import Mathlib

/-!
Formal model of `src/semantic_change_detection_methods/time_series_analysis.py`
(change-point detection over word-embedding distance time series).

Modelling conventions:
* Python floats are modelled as rationals `ℚ`; `NaN` values that arise from
  `np.mean`/`np.var` of an empty list or from `0/0` are modelled as `none` in
  `Option ℚ` (and arithmetic on them propagates `none`, like NaN).
* Python `None` entries of a z-score series are `none : Option ℚ`.
* Python truthiness `if i:` on a float-or-None is `truthy`: `None` and `0.0`
  are falsy, every other float is truthy.
* `np.random.permutation` is modelled by passing the drawn permutations as an
  explicit list `perms` (one entry per sample); `n_samples = perms.length`.
* A function that can raise an uncaught Python exception returns `Except Unit`.
-/

/-- Python truthiness of a float-or-None value: `None` and `0.0` are falsy. -/
def truthy : Option ℚ → Bool
  | none => false
  | some x => x ≠ 0

/-- Model of `np.mean` of a list of floats: `NaN` (modelled `none`) on the empty list. -/
def pymean (l : List ℚ) : Option ℚ :=
  match l with
  | [] => none
  | _ => some (l.sum / l.length)

/-- Subtraction on float-or-NaN values: NaN propagates. -/
def optSub : Option ℚ → Option ℚ → Option ℚ
  | some a, some b => some (a - b)
  | _, _ => none

/-- Model of `compute_mean_shift(time_series, j, compare_to)`:
`np.mean([i for i in ts[j+1:] if i]) - np.mean([i for i in ts[:j+1] if i])`
when `compare_to == 'first'`, and the reversed difference otherwise
(`'last'`/`'previous'` and any other string fall into the `else` branch).
The inner `if i` filter drops zero entries (Python float truthiness). -/
def compute_mean_shift (ts : List ℚ) (j : ℕ) (compare_to : String) : Option ℚ :=
  let after := (ts.drop (j+1)).filter (fun x => x ≠ 0)
  let upto := (ts.take (j+1)).filter (fun x => x ≠ 0)
  if compare_to = "first" then
    optSub (pymean after) (pymean upto)
  else
    optSub (pymean upto) (pymean after)

/-- Model of `get_mean_shift_series(time_series, compare_to)`:
`[compute_mean_shift(ts, j, c) for j in range(len(ts)-1)]`. -/
def get_mean_shift_series (ts : List ℚ) (compare_to : String) : List (Option ℚ) :=
  (List.range (ts.length - 1)).map (fun j => compute_mean_shift ts j compare_to)

/-- One inner-loop step of `get_p_value_series` at index `x` for one permuted
series: the counter at `x` is incremented when the original mean-shift at `x`
is NaN (`np.isnan(mean_shift_series[x])`), or else when the permuted
mean-shift strictly exceeds the original
(`mean_shift_permuted_series[x] > mean_shift_series[x]`; any comparison
involving NaN is false). -/
def trialHit (ms msp : List (Option ℚ)) (x : ℕ) : Bool :=
  match ms.get? x with
  | some none => true
  | some (some v) =>
      match msp.get? x with
      | some (some w) => v < w
      | _ => false
  | none => false

/-- The inner loop of `get_p_value_series` for one permuted series:
`for x in range(len(mean_shift_permuted_series)): if ...: p_value_series[x] += 1`.
The counter at position `x` (counted from `x0`) is incremented when
`x < len(msp)` and `trialHit` holds there; positions past the permuted
series' length are left untouched, as in the Python loop. -/
def bumpFrom (ms msp : List (Option ℚ)) : ℕ → List ℕ → List ℕ
  | _, [] => []
  | x, c :: cs =>
      (if x < msp.length ∧ trialHit ms msp x then c + 1 else c) ::
        bumpFrom ms msp (x + 1) cs

/-- The counting loops of `get_p_value_series`: starting from
`np.zeros(len(mean_shift_series))`, each of the `n_samples` permuted series
runs one pass of `bumpFrom` over the counters. -/
def runTrials (ms : List (Option ℚ)) (compare_to : String)
    (perms : List (List ℚ)) (counts : List ℕ) : List ℕ :=
  perms.foldl
    (fun cs perm => bumpFrom ms (get_mean_shift_series perm compare_to) 0 cs)
    counts

/-- Model of `get_p_value_series(word, mean_shift_series, n_samples, z_score_series,
compare_to)`. The `word` argument is only printed; the random permutations
drawn from `z_score_series` are passed explicitly as `perms`
(`n_samples = perms.length`). The final `p_value_series /= n_samples` is
numpy division: with `n_samples = 0` every entry is `0/0 = NaN` (`none`). -/
def get_p_value_series (ms : List (Option ℚ)) (perms : List (List ℚ))
    (compare_to : String) : List (Option ℚ) :=
  (runTrials ms compare_to perms (List.replicate ms.length 0)).map
    (fun (c : ℕ) =>
      if perms.length = 0 then none else some ((c : ℚ) / (perms.length : ℚ)))

/-- The compaction of the z-score series in `detect_change_point`:
`z_score_series = [i for i in z_score_series if i]` — only truthy entries
(defined and nonzero) survive. -/
def pyCompact (z : List (Option ℚ)) : List ℚ :=
  z.filterMap (fun o => if truthy o then o else none)

/-- The compaction of the time-slice labels in `detect_change_point`:
`[time_slice_labels[i] for i in range(len(time_slice_labels)) if z_score_series[i]]`.
Both lists have the same length at the call site, so this is filtering the
zipped pairs by truthiness of the z-score component. -/
def compactLabels (time_slice_labels : List String) (z : List (Option ℚ)) :
    List String :=
  ((time_slice_labels.zip z).filter (fun p => truthy p.2)).map Prod.fst

/-- The gamma gate of `detect_change_point`:
`for i in range(len(p_value_series)): if z_score_series[i] < gamma_threshold:
p_value_series[i] = 1`, walking the p-value list with its index. An index
past the end of the (compacted) z-score list would be a Python `IndexError`;
it cannot happen at the call site since `len(p) = len(z) - 1`, and the entry
is left unchanged here. -/
def gateFrom (z : List ℚ) (gamma_threshold : ℚ) :
    ℕ → List (Option ℚ) → List (Option ℚ)
  | _, [] => []
  | i, pv :: ps =>
      (match z.get? i with
       | some zv => if zv < gamma_threshold then some 1 else pv
       | none => pv) :: gateFrom z gamma_threshold (i + 1) ps

/-- The gamma gate, started at index 0. -/
def gate (p : List (Option ℚ)) (z : List ℚ) (gamma_threshold : ℚ) :
    List (Option ℚ) :=
  gateFrom z gamma_threshold 0 p

/-- Model of `np.array(l).min()`: the outer `none` is the `ValueError` raised on an
empty array; a `NaN` entry (inner `none`) makes the minimum `NaN`, as numpy's
`min` propagates NaN. -/
def npMin (l : List (Option ℚ)) : Option (Option ℚ) :=
  match l with
  | [] => none
  | a :: t =>
      if (a :: t).any (fun o => o.isNone) then some none
      else
        match (a :: t).filterMap id with
        | [] => some none
        | v :: vs => some (some (vs.foldl min v))

/-- Python `<` between a float-or-NaN and a float: any comparison with NaN is
false. -/
def pyLt (o : Option ℚ) (t : ℚ) : Bool :=
  match o with
  | some v => v < t
  | none => false

/-- numpy elementwise `==` between float-or-NaN values: `NaN == x` is false,
even for `x = NaN`. -/
def pyEqOpt : Option ℚ → Option ℚ → Bool
  | some a, some b => a = b
  | _, _ => false

/-- Python `>` between float-or-NaN values: any comparison with NaN is
false. -/
def pyGtOpt : Option ℚ → Option ℚ → Bool
  | some a, some b => b < a
  | _, _ => false

/-- Python `max(pairs, key=lambda x: x[1])`: `none` on the empty list (a
`ValueError`), otherwise the first element whose key no later element
strictly exceeds (Python keeps the current maximum on ties and on false
NaN comparisons). -/
def pyMaxBySnd (l : List (ℕ × Option ℚ)) : Option (ℕ × Option ℚ) :=
  match l with
  | [] => none
  | x :: xs =>
      some (xs.foldl (fun cur it => if pyGtOpt it.2 cur.2 then it else cur) x)

/-- The result tuple `(word, time_slice_label, min_p_val, mean_shift, z_score)`
returned by `detect_change_point`. `pval` and `mshift` are float-or-NaN. -/
structure ChangePoint where
  word : String
  label : String
  pval : Option ℚ
  mshift : Option ℚ
  zscore : ℚ
  deriving Repr, DecidableEq

/-- Model of `detect_change_point(word, time_slice_labels, z_score_series, n_samples,
p_value_threshold, gamma_threshold, compare_to)`. The random permutations of
the compacted z-score series are passed explicitly as `perms`
(`n_samples = perms.length`). `Except.error ()` models the uncaught
`NameError` on `min_p_val` that follows the caught-and-printed `ValueError`
when `p_value_series` is empty. The `getD` defaults are never reached: every
index comes from `List.range` over the list's own length (or is bounded by
`len(p) = len(z') - 1 < len(z') ≤ len(labels')` at the call site). -/
def detect_change_point (word : String) (time_slice_labels : List String)
    (z_score_series : List (Option ℚ)) (perms : List (List ℚ))
    (p_value_threshold gamma_threshold : ℚ) (compare_to : String) :
    Except Unit (Option ChangePoint) :=
  let notNone_time_slice_labels := compactLabels time_slice_labels z_score_series
  if notNone_time_slice_labels.isEmpty then Except.ok none
  else
    let zc := pyCompact z_score_series
    let mean_shift_series := get_mean_shift_series zc compare_to
    let p0 := get_p_value_series mean_shift_series perms compare_to
    let p := gate p0 zc gamma_threshold
    match npMin p with
    | none => Except.error ()
    | some min_p_val =>
        if pyLt min_p_val p_value_threshold then
          let indices :=
            (List.range p.length).filter (fun i => pyEqOpt (p.getD i none) min_p_val)
          match pyMaxBySnd (indices.map (fun i => (i, mean_shift_series.getD i none))) with
          | none => Except.error ()
          | some (change_point, mean_shift) =>
              Except.ok (some
                { word := word
                  label := notNone_time_slice_labels.getD change_point ""
                  pval := min_p_val
                  mshift := mean_shift
                  zscore := zc.getD change_point 0 })
        else Except.ok none

/-- Model of `np.var` (population variance) of a list of floats: `NaN` (`none`) on the
empty list. -/
def pyvar (l : List ℚ) : Option ℚ :=
  match l with
  | [] => none
  | _ => some (((l.map (fun x => (x - l.sum / l.length) ^ 2)).sum) / l.length)

/-- Model of `get_z_score_dict(dist_dict)`. The dictionary is an association list in
insertion order. `np.sqrt` is an external numeric routine, passed as the
oracle `sqrtFn`. The values entering `np.mean`/`np.var` are
`[i for i in dist_dict.values() if i]` — the truthy ones, so `None` *and*
`0.0` are excluded. A word's z-score is computed only when its own distance
is truthy (`if dist_dict[word]:`), otherwise the word maps to `None`. The
NaN mean/variance of an empty truthy-value list cannot be reached inside the
truthy branch and is mapped to `none` as well. -/
def get_z_score_dict (sqrtFn : ℚ → ℚ) (dist_dict : List (String × Option ℚ)) :
    List (String × Option ℚ) :=
  let vals := (dist_dict.map Prod.snd).filterMap (fun o => if truthy o then o else none)
  dist_dict.map (fun p =>
    (p.1,
     if truthy p.2 then
       match p.2, pymean vals, pyvar vals with
       | some d, some m, some v => some ((d - m) / sqrtFn v)
       | _, _, _ => none
     else none))

/-- The per-word loop of `get_dist_dict(model_path, ..., vocab,
distance_measure, k, training_mode)` (lines 50-64). Model loading, alignment
and the two distance routines are external collaborators, passed as oracles:
`inModel`/`inCompModel` are vocabulary membership of the current and
comparison models, `cosineD`/`neighborD` the two distance measures already
specialised to this pair of models. For a word present in both models the
branch on `distance_measure` applies `cosine` when the string is `"cosine"`
and otherwise falls into the `else` branch (the neighborhood measure — the
`raise` for invalid measures is commented out in the source); absent words
map to `None`. -/
def get_dist_dict (vocab : List String) (inModel inCompModel : String → Bool)
    (cosineD neighborD : String → ℚ) (distance_measure : String) :
    List (String × Option ℚ) :=
  vocab.map (fun word =>
    (word,
     if inCompModel word && inModel word then
       some (if distance_measure = "cosine" then cosineD word else neighborD word)
     else none))

/-- One row of the final results list, as consumed by the ranking code
(lines 373-382): the tuple `(word, time_slice_label, p_value, mean_shift,
z_score)` with numeric entries. -/
structure RankRow where
  word : String
  label : String
  pval : ℚ
  mshift : ℚ
  zscore : ℚ
  deriving Repr, DecidableEq

/-- Stable insertion into a sorted list: the model of one step of Python's
stable `sorted`. An element is placed before the first element `b` with
`le a b` (so on equal keys the inserted, originally-earlier element stays
first). -/
def stableInsert (le : RankRow → RankRow → Bool) (a : RankRow) :
    List RankRow → List RankRow
  | [] => [a]
  | b :: bs => if le a b then a :: b :: bs else b :: stableInsert le a bs

/-- Python's stable `sorted(results, key=k)`, modelled as a stable sort by
the boolean comparison `le a b = (k a ≤ k b)`. -/
def pySorted (le : RankRow → RankRow → Bool) (l : List RankRow) :
    List RankRow :=
  l.foldr (stableInsert le) []

/-- The ranking dispatch of the driver (lines 373-382):
`rank_by == 'z_score'` sorts by `-x[4]`, `rank_by == 'mean_shift'` by
`-x[3]`, and *every other string* falls into the `else` branch (the comment
says `rank_by == 'p_value'`, and the `raise` for invalid keys is commented
out): sort by `-x[3]`, then stably by `x[2]`. -/
def rankResults (rank_by : String) (results : List RankRow) : List RankRow :=
  if rank_by = "z_score" then
    pySorted (fun a b => b.zscore ≤ a.zscore) results
  else if rank_by = "mean_shift" then
    pySorted (fun a b => b.mshift ≤ a.mshift) results
  else
    pySorted (fun a b => a.pval ≤ b.pval)
      (pySorted (fun a b => b.mshift ≤ a.mshift) results)

/-! ### Auxiliary lemmas -/

/-- The permuted-trial condition of `bumpFrom`, as a predicate on the drawn
permutation, for counting purposes. -/
def hitP (ms : List (Option ℚ)) (compare_to : String) (x : ℕ)
    (perm : List ℚ) : Bool :=
  let msp := get_mean_shift_series perm compare_to
  decide (x < msp.length) && trialHit ms msp x

theorem pymean_of_ne_nil {l : List ℚ} (h : l ≠ []) :
    pymean l = some (l.sum / l.length) := by
  cases l with
  | nil => exact absurd rfl h
  | cons a t => rfl

theorem get_mean_shift_series_length (ts : List ℚ) (c : String) :
    (get_mean_shift_series ts c).length = ts.length - 1 := by
  simp [get_mean_shift_series]

theorem get_mean_shift_series_get? (ts : List ℚ) (c : String) {j : ℕ}
    (hj : j < ts.length - 1) :
    (get_mean_shift_series ts c).get? j = some (compute_mean_shift ts j c) := by
  simp [get_mean_shift_series, List.get?_eq_getElem?, List.getElem?_map,
    List.getElem?_range, hj]

theorem bumpFrom_length (ms msp : List (Option ℚ)) (x0 : ℕ) (cs : List ℕ) :
    (bumpFrom ms msp x0 cs).length = cs.length := by
  induction cs generalizing x0 with
  | nil => rfl
  | cons c t ih => simp [bumpFrom, ih]

theorem bumpFrom_get? (ms msp : List (Option ℚ)) (cs : List ℕ) (x0 j : ℕ) :
    (bumpFrom ms msp x0 cs).get? j =
      (cs.get? j).map
        (fun c => if x0 + j < msp.length ∧ trialHit ms msp (x0 + j) then c + 1 else c) := by
  induction cs generalizing x0 j with
  | nil => simp [bumpFrom]
  | cons c t ih =>
      cases j with
      | zero => simp [bumpFrom]
      | succ j =>
          simp only [bumpFrom, List.get?_cons_succ, ih]
          have : x0 + 1 + j = x0 + (j + 1) := by omega
          rw [this]

theorem runTrials_length (ms : List (Option ℚ)) (c : String)
    (perms : List (List ℚ)) (counts : List ℕ) :
    (runTrials ms c perms counts).length = counts.length := by
  induction perms generalizing counts with
  | nil => rfl
  | cons p t ih => simp [runTrials, List.foldl_cons] at ih ⊢; rw [ih, bumpFrom_length]

theorem runTrials_get? (ms : List (Option ℚ)) (c : String)
    (perms : List (List ℚ)) (counts : List ℕ) (x : ℕ) :
    (runTrials ms c perms counts).get? x =
      (counts.get? x).map (· + perms.countP (hitP ms c x)) := by
  induction perms generalizing counts with
  | nil =>
      simp only [runTrials, List.foldl_nil, List.countP_nil]
      cases counts.get? x <;> simp
  | cons p t ih =>
      simp only [runTrials, List.foldl_cons] at ih ⊢
      rw [ih, bumpFrom_get?, List.countP_cons]
      simp only [Nat.zero_add]
      cases hc : counts.get? x with
      | none => simp
      | some cnt =>
          simp only [Option.map_some', Option.some.injEq]
          by_cases hhit : x < (get_mean_shift_series p c).length ∧
              trialHit ms (get_mean_shift_series p c) x = true
          · have hP : hitP ms c x p = true := by
              simp only [hitP, Bool.and_eq_true, decide_eq_true_iff]
              exact hhit
            rw [if_pos hhit, if_pos hP]
            omega
          · have hP : ¬ hitP ms c x p = true := by
              simp only [hitP, Bool.and_eq_true, decide_eq_true_iff]
              exact hhit
            rw [if_neg hhit, if_neg hP]
            omega

theorem replicate_get? (n x : ℕ) :
    (List.replicate n (0 : ℕ)).get? x = if x < n then some 0 else none := by
  induction n generalizing x with
  | zero => simp
  | succ n ih =>
      cases x with
      | zero => simp [List.replicate]
      | succ x =>
          simp only [List.replicate, List.get?_cons_succ, ih]
          by_cases h : x < n
          · rw [if_pos h, if_pos (by omega)]
          · rw [if_neg h, if_neg (by omega)]

theorem get_p_value_series_length (ms : List (Option ℚ))
    (perms : List (List ℚ)) (c : String) :
    (get_p_value_series ms perms c).length = ms.length := by
  simp [get_p_value_series, runTrials_length]

theorem get_p_value_series_get? (ms : List (Option ℚ))
    (perms : List (List ℚ)) (c : String) {x : ℕ} (hx : x < ms.length) :
    (get_p_value_series ms perms c).get? x =
      some (if perms.length = 0 then none
            else some ((perms.countP (hitP ms c x) : ℚ) / perms.length)) := by
  simp only [get_p_value_series, List.get?_map, runTrials_get?, replicate_get?,
    if_pos hx, Option.map_some', Nat.zero_add]

theorem gateFrom_length (z : List ℚ) (g : ℚ) (x0 : ℕ) (p : List (Option ℚ)) :
    (gateFrom z g x0 p).length = p.length := by
  induction p generalizing x0 with
  | nil => rfl
  | cons pv ps ih => simp [gateFrom, ih]

theorem gateFrom_get? (z : List ℚ) (g : ℚ) (p : List (Option ℚ)) (x0 j : ℕ) :
    (gateFrom z g x0 p).get? j =
      (p.get? j).map
        (fun pv =>
          match z.get? (x0 + j) with
          | some zv => if zv < g then some 1 else pv
          | none => pv) := by
  induction p generalizing x0 j with
  | nil => simp [gateFrom]
  | cons pv ps ih =>
      cases j with
      | zero => simp [gateFrom]
      | succ j =>
          simp only [gateFrom, List.get?_cons_succ, ih]
          have : x0 + 1 + j = x0 + (j + 1) := by omega
          rw [this]

theorem gate_length (p : List (Option ℚ)) (z : List ℚ) (g : ℚ) :
    (gate p z g).length = p.length := gateFrom_length z g 0 p

theorem gate_get? (p : List (Option ℚ)) (z : List ℚ) (g : ℚ) (j : ℕ) :
    (gate p z g).get? j =
      (p.get? j).map
        (fun pv =>
          match z.get? j with
          | some zv => if zv < g then some 1 else pv
          | none => pv) := by
  have h := gateFrom_get? z g p 0 j
  simpa [gate, Nat.zero_add] using h

theorem pyCompact_ne_zero (z : List (Option ℚ)) :
    ∀ x ∈ pyCompact z, x ≠ 0 := by
  intro x hx
  simp only [pyCompact, List.mem_filterMap] at hx
  obtain ⟨o, _, ho⟩ := hx
  by_cases ht : truthy o = true
  · rw [if_pos ht] at ho
    cases o with
    | none => simp [truthy] at ht
    | some v =>
        simp only [truthy, decide_eq_true_iff] at ht
        cases ho
        exact ht
  · rw [if_neg ht] at ho
    cases ho

theorem compute_mean_shift_defined (ts : List ℚ) (c : String) {j : ℕ}
    (h : ∀ x ∈ ts, x ≠ 0) (hj : j < ts.length - 1) :
    compute_mean_shift ts j c =
      (if c = "first"
        then optSub (pymean (ts.drop (j+1))) (pymean (ts.take (j+1)))
        else optSub (pymean (ts.take (j+1))) (pymean (ts.drop (j+1)))) ∧
    ∃ v, compute_mean_shift ts j c = some v := by
  have hafter : (ts.drop (j+1)).filter (fun x => decide (x ≠ 0)) = ts.drop (j+1) := by
    rw [List.filter_eq_self]
    intro a ha
    exact decide_eq_true (h a (List.mem_of_mem_drop ha))
  have hupto : (ts.take (j+1)).filter (fun x => decide (x ≠ 0)) = ts.take (j+1) := by
    rw [List.filter_eq_self]
    intro a ha
    exact decide_eq_true (h a (List.mem_of_mem_take ha))
  have hdne : ts.drop (j+1) ≠ [] := by
    intro hnil
    have := congrArg List.length hnil
    simp only [List.length_drop, List.length_nil] at this
    omega
  have htne : ts.take (j+1) ≠ [] := by
    intro hnil
    have := congrArg List.length hnil
    simp only [List.length_take, List.length_nil] at this
    omega
  obtain ⟨ma, hma⟩ : ∃ m, pymean (ts.drop (j+1)) = some m :=
    ⟨_, pymean_of_ne_nil hdne⟩
  obtain ⟨mu, hmu⟩ : ∃ m, pymean (ts.take (j+1)) = some m :=
    ⟨_, pymean_of_ne_nil htne⟩
  constructor
  · rw [compute_mean_shift]
    simp only [hafter, hupto]
  · rw [compute_mean_shift]
    simp only [hafter, hupto, hma, hmu]
    by_cases hc : c = "first"
    · rw [if_pos hc]; exact ⟨_, rfl⟩
    · rw [if_neg hc]; exact ⟨_, rfl⟩

theorem compute_mean_shift_empty_slice (ts : List ℚ) (c : String) {j : ℕ}
    (hj : ts.length ≤ j + 1) :
    compute_mean_shift ts j c = none := by
  have hd : ts.drop (j+1) = [] := List.drop_eq_nil_of_le hj
  rw [compute_mean_shift]
  simp only [hd, List.filter_nil]
  by_cases hc : c = "first"
  · rw [if_pos hc]; rfl
  · rw [if_neg hc]
    show optSub _ (pymean []) = none
    rw [show pymean [] = none from rfl]
    cases pymean ((ts.take (j+1)).filter (fun x => decide (x ≠ 0))) <;> rfl

theorem foldl_min_spec (vs : List ℚ) :
    ∀ v : ℚ, (vs.foldl min v = v ∨ vs.foldl min v ∈ vs) ∧
      vs.foldl min v ≤ v ∧ ∀ w ∈ vs, vs.foldl min v ≤ w := by
  induction vs with
  | nil => intro v; simp
  | cons w ws ih =>
      intro v
      simp only [List.foldl_cons]
      obtain ⟨hmem, hle, hall⟩ := ih (min v w)
      refine ⟨?_, ?_, ?_⟩
      · rcases hmem with h | h
        · rcases min_choice v w with hm | hm
          · exact Or.inl (h.trans hm)
          · exact Or.inr (by rw [h, hm]; exact List.mem_cons_self w ws)
        · exact Or.inr (List.mem_cons_of_mem _ h)
      · exact hle.trans (min_le_left _ _)
      · intro u hu
        rcases List.mem_cons.mp hu with h | h
        · rw [h] at *
          exact hle.trans (min_le_right _ _)
        · exact hall u h

theorem npMin_spec (l : List (Option ℚ)) (hne : l ≠ [])
    (hall : ∀ o ∈ l, o.isSome = true) :
    ∃ m : ℚ, npMin l = some (some m) ∧ some m ∈ l ∧
      ∀ q : ℚ, some q ∈ l → m ≤ q := by
  have hany : l.any (fun o => o.isNone) = false := by
    rw [List.any_eq_false]
    intro o ho
    have hs := hall o ho
    cases o with
    | none => simp at hs
    | some v => simp
  have hmemfm : ∀ x : ℚ, x ∈ l.filterMap id ↔ some x ∈ l := by
    intro x
    simp [List.mem_filterMap]
  cases l with
  | nil => exact absurd rfl hne
  | cons a t =>
      obtain ⟨v, hv⟩ :=
        Option.isSome_iff_exists.mp (hall a (List.mem_cons_self a t))
      subst hv
      have hfm : (some v :: t).filterMap id = v :: t.filterMap id := by
        simp [List.filterMap_cons]
      have hnp : npMin (some v :: t) = some (some ((t.filterMap id).foldl min v)) := by
        simp only [npMin, hany, Bool.false_eq_true, if_false, hfm]
      obtain ⟨hmem, hle, hallmin⟩ := foldl_min_spec (t.filterMap id) v
      refine ⟨(t.filterMap id).foldl min v, hnp, ?_, ?_⟩
      · rw [← hmemfm, hfm]
        rcases hmem with h | h
        · rw [h]; exact List.mem_cons_self v _
        · exact List.mem_cons_of_mem _ h
      · intro q hq
        rw [← hmemfm, hfm] at hq
        rcases List.mem_cons.mp hq with h | h
        · rw [h]; exact hle
        · exact hallmin q h

theorem pyGtOpt_self (o : Option ℚ) : pyGtOpt o o = false := by
  cases o with
  | none => rfl
  | some v => simp [pyGtOpt]

theorem pyGtOpt_none_right (o : Option ℚ) : pyGtOpt o none = false := by
  cases o <;> rfl

theorem pyMaxFold_spec (xs : List (ℕ × Option ℚ)) :
    ∀ cur : ℕ × Option ℚ,
      (xs.foldl (fun cur it => if pyGtOpt it.2 cur.2 then it else cur) cur = cur ∨
        xs.foldl (fun cur it => if pyGtOpt it.2 cur.2 then it else cur) cur ∈ xs) ∧
      (cur.2 = none →
        xs.foldl (fun cur it => if pyGtOpt it.2 cur.2 then it else cur) cur = cur) ∧
      pyGtOpt cur.2 (xs.foldl (fun cur it => if pyGtOpt it.2 cur.2 then it else cur) cur).2 = false ∧
      ∀ it ∈ xs,
        pyGtOpt it.2 (xs.foldl (fun cur it => if pyGtOpt it.2 cur.2 then it else cur) cur).2 = false := by
  induction xs with
  | nil =>
      intro cur
      exact ⟨Or.inl rfl, fun _ => rfl, pyGtOpt_self _, by simp⟩
  | cons a xs ih =>
      intro cur
      simp only [List.foldl_cons]
      by_cases hgt : pyGtOpt a.2 cur.2 = true
      · rw [if_pos hgt]
        obtain ⟨hmem, hnan, hcur, hall⟩ := ih a
        obtain ⟨av, hav, cv, hcv, hlt⟩ : ∃ av, a.2 = some av ∧ ∃ cv, cur.2 = some cv ∧ cv < av := by
          cases ha : a.2 with
          | none => rw [ha] at hgt; simp [pyGtOpt] at hgt
          | some av =>
              cases hc : cur.2 with
              | none => rw [ha, hc] at hgt; simp [pyGtOpt] at hgt
              | some cv =>
                  rw [ha, hc] at hgt
                  simp only [pyGtOpt, decide_eq_true_iff] at hgt
                  exact ⟨av, rfl, cv, rfl, hgt⟩
        refine ⟨?_, ?_, ?_, ?_⟩
        · rcases hmem with h | h
          · exact Or.inr (by rw [h]; exact List.mem_cons_self a xs)
          · exact Or.inr (List.mem_cons_of_mem _ h)
        · intro hcn; rw [hcn] at hcv; cases hcv
        · rw [hav] at hcur
          cases hr : (xs.foldl (fun cur it => if pyGtOpt it.2 cur.2 then it else cur) a).2 with
          | none => rw [hcv, pyGtOpt_none_right]
          | some rv =>
              rw [hr] at hcur
              simp only [pyGtOpt, decide_eq_true_iff] at hcur ⊢
              rw [hcv]
              simp only [pyGtOpt, decide_eq_false_iff_not] at *
              intro hcon
              exact hcur (lt_trans hcon hlt)
        · intro it hit
          rcases List.mem_cons.mp hit with h | h
          · rw [h]; exact hcur
          · exact hall it h
      · rw [if_neg hgt]
        obtain ⟨hmem, hnan, hcur, hall⟩ := ih cur
        refine ⟨?_, hnan, hcur, ?_⟩
        · rcases hmem with h | h
          · exact Or.inl h
          · exact Or.inr (List.mem_cons_of_mem _ h)
        · intro it hit
          rcases List.mem_cons.mp hit with h | h
          · rw [h]
            cases ha : a.2 with
            | none => cases (xs.foldl _ cur).2 <;> rfl
            | some av =>
                cases hc : cur.2 with
                | none =>
                    rw [hnan hc, hc, pyGtOpt_none_right]
                | some cv =>
                    rw [ha, hc] at hgt
                    simp only [pyGtOpt, decide_eq_true_iff] at hgt
                    push_neg at hgt
                    rw [hc] at hcur
                    cases hr : (xs.foldl (fun cur it => if pyGtOpt it.2 cur.2 then it else cur) cur).2 with
                    | none => rw [pyGtOpt_none_right]
                    | some rv =>
                        rw [hr] at hcur
                        simp only [pyGtOpt, decide_eq_false_iff_not] at hcur ⊢
                        intro hcon
                        exact hcur (lt_of_lt_of_le hcon hgt)
          · exact hall it h

theorem pyMaxBySnd_spec (l : List (ℕ × Option ℚ)) (hne : l ≠ []) :
    ∃ r, pyMaxBySnd l = some r ∧ r ∈ l ∧ ∀ it ∈ l, pyGtOpt it.2 r.2 = false := by
  cases l with
  | nil => exact absurd rfl hne
  | cons x xs =>
      obtain ⟨hmem, _, hcur, hall⟩ := pyMaxFold_spec xs x
      refine ⟨_, rfl, ?_, ?_⟩
      · rcases hmem with h | h
        · rw [h]; exact List.mem_cons_self x xs
        · exact List.mem_cons_of_mem _ h
      · intro it hit
        rcases List.mem_cons.mp hit with h | h
        · rw [h]; exact hcur
        · exact hall it h

theorem compactLabels_length (labels : List String) (z : List (Option ℚ))
    (hlen : labels.length = z.length) :
    (compactLabels labels z).length = (pyCompact z).length := by
  induction labels generalizing z with
  | nil =>
      cases z with
      | nil => rfl
      | cons o os => simp at hlen
  | cons lb ls ih =>
      cases z with
      | nil => simp at hlen
      | cons o os =>
          have hlen' : ls.length = os.length := by
            simpa using hlen
          have ihe := ih os hlen'
          cases o with
          | none =>
              have ht : truthy none = false := rfl
              simp only [compactLabels, pyCompact, List.zip_cons_cons,
                List.filter_cons, List.filterMap_cons, ht,
                Bool.false_eq_true, if_false] at ihe ⊢
              exact ihe
          | some b =>
              by_cases hb : b = 0
              · have ht : truthy (some b) = false := by simp [truthy, hb]
                simp only [compactLabels, pyCompact, List.zip_cons_cons,
                  List.filter_cons, List.filterMap_cons, ht,
                  Bool.false_eq_true, if_false] at ihe ⊢
                exact ihe
              · have ht : truthy (some b) = true := by simp [truthy, hb]
                simp only [compactLabels, pyCompact, List.zip_cons_cons,
                  List.filter_cons, List.filterMap_cons, ht, if_pos,
                  List.map_cons, List.length_cons] at ihe ⊢
                rw [ihe]

theorem get_p_value_series_entry (ms : List (Option ℚ))
    (perms : List (List ℚ)) (c : String) (hn : perms ≠ []) {x : ℕ}
    (hx : x < ms.length) :
    ∃ q : ℚ, (get_p_value_series ms perms c).get? x = some (some q) ∧
      0 ≤ q ∧ q ≤ 1 := by
  rw [get_p_value_series_get? _ _ _ hx]
  have hlen : ¬ perms.length = 0 := by
    simpa [List.length_eq_zero] using hn
  rw [if_neg hlen]
  refine ⟨_, rfl, ?_, ?_⟩
  · positivity
  · rw [div_le_one (by exact_mod_cast Nat.pos_of_ne_zero hlen)]
    exact_mod_cast List.countP_le_length _

example : get_p_value_series (get_mean_shift_series [1,2] "last") [[2,1]] "last"
    = [some 1] := by
  simp [get_p_value_series, runTrials, get_mean_shift_series, compute_mean_shift,
    pymean, optSub, trialHit, List.range, List.range.loop, bumpFrom, List.filter]
  norm_num

example : get_p_value_series (get_mean_shift_series [1,2] "last") [] "last"
    = [none] := by
  simp [get_p_value_series, runTrials, get_mean_shift_series, compute_mean_shift,
    pymean, optSub, List.range, List.range.loop]

example : get_mean_shift_series [1,2,3] "first"
    = [some (3/2), some (3/2)] := by
  simp [get_mean_shift_series, compute_mean_shift, pymean, optSub,
    List.range, List.range.loop]
  norm_num

/-! ### Claims -/

/-- C3: for every compacted z-score series (all entries nonzero, which is what
the code's truthiness-based compaction produces) and every comparison policy,
the mean-shift series has exactly `L - 1` entries, and entry `j` is
`mean(series[j+1:]) - mean(series[:j+1])` under the `first` policy and the
reversed difference otherwise, each mean taken over the whole slice with no
further filtering; the mean of an empty slice is NaN (`none`) and NaN
propagates through the subtraction instead of being replaced by zero. -/
theorem C3_mean_shift_series (ts : List ℚ) (c : String)
    (h : ∀ x ∈ ts, x ≠ 0) :
    (get_mean_shift_series ts c).length = ts.length - 1 ∧
    (∀ j, j < ts.length - 1 →
      (get_mean_shift_series ts c).get? j =
        some (if c = "first"
          then optSub (pymean (ts.drop (j+1))) (pymean (ts.take (j+1)))
          else optSub (pymean (ts.take (j+1))) (pymean (ts.drop (j+1))))) ∧
    pymean ([] : List ℚ) = none ∧
    (∀ a b : Option ℚ, a = none ∨ b = none → optSub a b = none) := by
  refine ⟨get_mean_shift_series_length ts c, ?_, rfl, ?_⟩
  · intro j hj
    rw [get_mean_shift_series_get? ts c hj, (compute_mean_shift_defined ts c h hj).1]
  · rintro a b (rfl | rfl)
    · cases b <;> rfl
    · cases a <;> rfl

/-- Witness for C3 at the concrete series `[1, 2, 3]` with policy `first`. -/
theorem C3_mean_shift_series_witness :
    (∀ x ∈ ([1, 2, 3] : List ℚ), x ≠ 0) ∧
    ((get_mean_shift_series [1, 2, 3] "first").length = ([1, 2, 3] : List ℚ).length - 1 ∧
    (∀ j, j < ([1, 2, 3] : List ℚ).length - 1 →
      (get_mean_shift_series [1, 2, 3] "first").get? j =
        some (if "first" = "first"
          then optSub (pymean (([1, 2, 3] : List ℚ).drop (j+1)))
                 (pymean (([1, 2, 3] : List ℚ).take (j+1)))
          else optSub (pymean (([1, 2, 3] : List ℚ).take (j+1)))
                 (pymean (([1, 2, 3] : List ℚ).drop (j+1))))) ∧
    pymean ([] : List ℚ) = none ∧
    (∀ a b : Option ℚ, a = none ∨ b = none → optSub a b = none)) := by
  have h : ∀ x ∈ ([1, 2, 3] : List ℚ), x ≠ 0 := by
    intro x hx
    fin_cases hx <;> norm_num
  exact ⟨h, C3_mean_shift_series [1, 2, 3] "first" h⟩

/-- C7 counterexample: with `n_samples = 0` (no permutation draws) the
p-value series of the two-point series `[1, 2]` is `[NaN]` (numpy `0/0`),
not `[0]` as the claim states. -/
theorem C7_counterexample :
    get_p_value_series (get_mean_shift_series [1, 2] "last") [] "last" = [none] ∧
    (none : Option ℚ) ≠ some 0 := by
  constructor
  · simp [get_p_value_series, runTrials, get_mean_shift_series, compute_mean_shift,
      pymean, optSub, List.range, List.range.loop]
  · simp

/-- C7 amended: with `n_samples = 0` the permutation test yields NaN
(`0/0`, modelled `none`) at every split index, and the series keeps the
length of the mean-shift series. -/
theorem C7_nsamples_zero (ms : List (Option ℚ)) (c : String) :
    (get_p_value_series ms [] c).length = ms.length ∧
    ∀ j, j < ms.length → (get_p_value_series ms [] c).get? j = some none := by
  refine ⟨get_p_value_series_length ms [] c, ?_⟩
  intro j hj
  rw [get_p_value_series_get? ms [] c hj]
  simp

/-- Witness for the amended C7 at the concrete mean-shift series
`[some 1]`. -/
theorem C7_nsamples_zero_witness :
    0 < ([some (1 : ℚ)] : List (Option ℚ)).length ∧
    (get_p_value_series [some (1 : ℚ)] [] "last").get? 0 = some none := by
  exact ⟨by decide, (C7_nsamples_zero [some (1 : ℚ)] "last").2 0 (by decide)⟩

/-- C8: the gamma gate keeps the length of the p-value series and, at every
index `j` (p series and compacted z-score series both defined there), forces
the p-value to `1` exactly when the signed z-score at `j` is strictly below
the gamma threshold, leaving it unchanged otherwise. -/
theorem C8_gamma_gate (p : List (Option ℚ)) (z : List ℚ) (g : ℚ) :
    (gate p z g).length = p.length ∧
    ∀ j zv pv, z.get? j = some zv → p.get? j = some pv →
      (gate p z g).get? j = some (if zv < g then some 1 else pv) := by
  refine ⟨gate_length p z g, ?_⟩
  intro j zv pv hz hp
  rw [gate_get?, hp, Option.map_some', hz]

/-- Witness for C8 at the concrete series `p = [some (1/2)]`,
`z = [-1, 5]`, gamma `0`. -/
theorem C8_gamma_gate_witness :
    ([(-1 : ℚ), 5] : List ℚ).get? 0 = some (-1) ∧
    ([some ((1 : ℚ)/2)] : List (Option ℚ)).get? 0 = some (some (1/2)) ∧
    (gate [some ((1 : ℚ)/2)] [-1, 5] 0).get? 0 =
      some (if (-1 : ℚ) < 0 then some 1 else some (1/2)) := by
  exact ⟨rfl, rfl,
    (C8_gamma_gate [some ((1 : ℚ)/2)] [-1, 5] 0).2 0 (-1) (some (1/2)) rfl rfl⟩

theorem pyvar_of_ne_nil {l : List ℚ} (h : l ≠ []) :
    pyvar l =
      some (((l.map (fun x => (x - l.sum / l.length) ^ 2)).sum : ℚ) / (l.length : ℚ)) := by
  cases l with
  | nil => exact absurd rfl h
  | cons a t => rfl

theorem compact_zip (labels : List String) (z : List (Option ℚ))
    (hlen : labels.length = z.length) :
    (compactLabels labels z).zip (pyCompact z) =
      (labels.zip z).filterMap (fun q => match q.2 with
        | some x => if x = 0 then none else some (q.1, x)
        | none => none) := by
  induction labels generalizing z with
  | nil =>
      cases z with
      | nil => rfl
      | cons o os => simp at hlen
  | cons lb ls ih =>
      cases z with
      | nil => simp at hlen
      | cons o os =>
          have hlen' : ls.length = os.length := by simpa using hlen
          have ihe := ih os hlen'
          cases o with
          | none =>
              have ht : truthy none = false := rfl
              simp only [compactLabels, pyCompact, List.zip_cons_cons,
                List.filter_cons, List.filterMap_cons, ht,
                Bool.false_eq_true, if_false] at ihe ⊢
              exact ihe
          | some b =>
              by_cases hb : b = 0
              · have ht : truthy (some b) = false := by simp [truthy, hb]
                simp only [compactLabels, pyCompact, List.zip_cons_cons,
                  List.filter_cons, List.filterMap_cons, ht,
                  Bool.false_eq_true, if_false, hb, if_pos] at ihe ⊢
                exact ihe
              · have ht : truthy (some b) = true := by simp [truthy, hb]
                simp only [compactLabels, pyCompact, List.zip_cons_cons,
                  List.filter_cons, List.filterMap_cons, ht, if_pos,
                  List.map_cons, hb, if_neg, List.zip_cons_cons] at ihe ⊢
                rw [ihe]
                simp

/-- C4 counterexample: the series `[0.0, 1.0]` (both entries *defined*) with
labels `["t0", "t1"]`. The claim says compaction retains the defined entry
`0.0`; the code's truthiness test drops it, keeping only `[1.0]` and the
label `"t1"`. -/
theorem C4_counterexample :
    pyCompact [some 0, some 1] = [1] ∧
    compactLabels ["t0", "t1"] [some 0, some 1] = ["t1"] ∧
    pyCompact [some 0, some 1] ≠ [0, 1] := by
  refine ⟨?_, ?_, ?_⟩ <;> simp [pyCompact, compactLabels, truthy]

/-- C4 amended: compaction drops exactly the *falsy* positions — those whose
z-score is undefined or equal to `0.0` — retaining every defined nonzero
entry, and the label sequence is filtered by the same criterion, so retained
z-scores and labels stay aligned position by position. -/
theorem C4_compaction (labels : List String) (z : List (Option ℚ))
    (hlen : labels.length = z.length) :
    pyCompact z = z.filterMap (fun o => match o with
      | some x => if x = 0 then none else some x
      | none => none) ∧
    (compactLabels labels z).length = (pyCompact z).length ∧
    (compactLabels labels z).zip (pyCompact z) =
      (labels.zip z).filterMap (fun q => match q.2 with
        | some x => if x = 0 then none else some (q.1, x)
        | none => none) := by
  refine ⟨?_, compactLabels_length labels z hlen, compact_zip labels z hlen⟩
  rw [pyCompact]
  congr 1
  funext o
  cases o with
  | none => rfl
  | some x =>
      by_cases hx : x = 0
      · have ht : truthy (some x) = false := by simp [truthy, hx]
        rw [ht]
        simp [hx]
      · have ht : truthy (some x) = true := by simp [truthy, hx]
        rw [ht]
        simp [hx]

/-- Witness for the amended C4 at labels `["t0", "t1", "t2"]` and series
`[some 0, none, some 2]`. -/
theorem C4_compaction_witness :
    (["t0", "t1", "t2"] : List String).length =
      ([some 0, none, some 2] : List (Option ℚ)).length ∧
    (pyCompact [some 0, none, some 2] =
      ([some 0, none, some 2] : List (Option ℚ)).filterMap (fun o => match o with
        | some x => if x = 0 then none else some x
        | none => none) ∧
    (compactLabels ["t0", "t1", "t2"] [some 0, none, some 2]).length =
      (pyCompact [some 0, none, some 2]).length ∧
    (compactLabels ["t0", "t1", "t2"] [some 0, none, some 2]).zip
        (pyCompact [some 0, none, some 2]) =
      ((["t0", "t1", "t2"] : List String).zip
          ([some 0, none, some 2] : List (Option ℚ))).filterMap
        (fun q => match q.2 with
          | some x => if x = 0 then none else some (q.1, x)
          | none => none)) := by
  exact ⟨rfl, C4_compaction ["t0", "t1", "t2"] [some 0, none, some 2] rfl⟩

/-- C5 counterexample: the distance dictionary
`{"a": 0.0, "b": 1.0, "c": 3.0}` (all three distances *defined*). The claim
says the mean and variance are computed over all three defined values and
that `"a"` (defined distance `0.0`) gets a z-score; the code's truthiness
filter excludes `0.0` from the mean/variance (using only `{1.0, 3.0}`, mean
`2`, variance `1`) and maps `"a"` to `None`. -/
theorem C5_counterexample :
    get_z_score_dict id [("a", some 0), ("b", some 1), ("c", some 3)] =
      [("a", none), ("b", some (-1)), ("c", some 1)] ∧
    ∀ q : ℚ,
      (get_z_score_dict id [("a", some 0), ("b", some 1), ("c", some 3)]).get? 0 ≠
        some ("a", some q) := by
  have h : get_z_score_dict id [("a", some 0), ("b", some 1), ("c", some 3)] =
      [("a", none), ("b", some (-1)), ("c", some 1)] := by
    have ht0 : truthy (some (0 : ℚ)) = false := by simp [truthy]
    have ht1 : truthy (some (1 : ℚ)) = true := by simp [truthy]
    have ht3 : truthy (some (3 : ℚ)) = true := by simp [truthy]
    have hm : pymean [(1 : ℚ), 3] = some 2 := by
      rw [pymean_of_ne_nil (by simp)]
      norm_num
    have hv : pyvar [(1 : ℚ), 3] = some 1 := by
      rw [pyvar_of_ne_nil (by simp)]
      norm_num
    simp only [get_z_score_dict, List.map_cons, List.map_nil, List.filterMap_cons,
      List.filterMap_nil, ht0, ht1, ht3, Bool.false_eq_true, if_false, if_pos,
      hm, hv, id]
    norm_num
  refine ⟨h, ?_⟩
  intro q
  rw [h]
  simp

/-- C5 amended: the standardizer computes the mean and population variance
over exactly the *truthy* distance values (defined **and nonzero**); a word
with a defined nonzero distance `d` maps to `(d - mean)/sqrt(variance)`, and
a word with a falsy distance (undefined **or zero**) maps to undefined. -/
theorem C5_standardizer (sqrtFn : ℚ → ℚ) (dd : List (String × Option ℚ)) :
    (∀ i w d, dd.get? i = some (w, some d) → d ≠ 0 →
      ∃ m v,
        pymean ((dd.map Prod.snd).filterMap (fun o => if truthy o then o else none)) = some m ∧
        pyvar ((dd.map Prod.snd).filterMap (fun o => if truthy o then o else none)) = some v ∧
        (get_z_score_dict sqrtFn dd).get? i = some (w, some ((d - m) / sqrtFn v))) ∧
    (∀ i w o, dd.get? i = some (w, o) → truthy o = false →
      (get_z_score_dict sqrtFn dd).get? i = some (w, none)) := by
  constructor
  · intro i w d hi hd
    have ht : truthy (some d) = true := by simp [truthy, hd]
    have hmem : (w, some d) ∈ dd := List.get?_mem hi
    have hvals : (d : ℚ) ∈ (dd.map Prod.snd).filterMap (fun o => if truthy o then o else none) := by
      rw [List.mem_filterMap]
      exact ⟨some d, List.mem_map_of_mem Prod.snd hmem, by rw [ht]; simp⟩
    have hne : (dd.map Prod.snd).filterMap (fun o => if truthy o then o else none) ≠ [] :=
      List.ne_nil_of_mem hvals
    obtain ⟨m, hm⟩ : ∃ m, pymean ((dd.map Prod.snd).filterMap (fun o => if truthy o then o else none)) = some m :=
      ⟨_, pymean_of_ne_nil hne⟩
    obtain ⟨v, hv⟩ : ∃ v, pyvar ((dd.map Prod.snd).filterMap (fun o => if truthy o then o else none)) = some v :=
      ⟨_, pyvar_of_ne_nil hne⟩
    refine ⟨m, v, hm, hv, ?_⟩
    rw [get_z_score_dict]
    rw [List.get?_map, hi, Option.map_some']
    simp only [ht, if_pos, hm, hv]
  · intro i w o hi ho
    rw [get_z_score_dict]
    rw [List.get?_map, hi, Option.map_some']
    simp only [ho, Bool.false_eq_true, if_false]

/-- Witness for the amended C5 at `sqrtFn = id` and the dictionary
`{"b": 1.0, "c": 3.0, "d": None}`. -/
theorem C5_standardizer_witness :
    (([("b", some 1), ("c", some 3), ("d", none)] : List (String × Option ℚ)).get? 0 =
      some ("b", some 1)) ∧ (1 : ℚ) ≠ 0 ∧
    (∃ m v,
      pymean ((([("b", some 1), ("c", some 3), ("d", none)] : List (String × Option ℚ)).map Prod.snd).filterMap
          (fun o => if truthy o then o else none)) = some m ∧
      pyvar ((([("b", some 1), ("c", some 3), ("d", none)] : List (String × Option ℚ)).map Prod.snd).filterMap
          (fun o => if truthy o then o else none)) = some v ∧
      (get_z_score_dict id [("b", some 1), ("c", some 3), ("d", none)]).get? 0 =
        some ("b", some (((1 : ℚ) - m) / id v))) := by
  refine ⟨rfl, one_ne_zero, ?_⟩
  exact (C5_standardizer id [("b", some 1), ("c", some 3), ("d", none)]).1
    0 "b" 1 rfl one_ne_zero

/-- C10 counterexample: a run configured with rank key `"bogus"` and distance
measure `"bogus"`. The claim says such a run surfaces a user error before
computation; instead the distance loop silently applies the neighborhood
measure (here yielding the neighborhood oracle's value `2`, not an error) and
the ranking silently behaves exactly like `"p_value"` (sorting the two rows
by ascending p-value). -/
theorem C10_counterexample :
    get_dist_dict ["x"] (fun _ => true) (fun _ => true) (fun _ => 1)
        (fun _ => 2) "bogus" = [("x", some 2)] ∧
    rankResults "bogus"
        [⟨"w1", "t1", 1/2, 5, 5⟩, ⟨"w2", "t2", 1/4, 3, 3⟩] =
      [⟨"w2", "t2", 1/4, 3, 3⟩, ⟨"w1", "t1", 1/2, 5, 5⟩] ∧
    rankResults "bogus"
        [⟨"w1", "t1", 1/2, 5, 5⟩, ⟨"w2", "t2", 1/4, 3, 3⟩] =
      rankResults "p_value"
        [⟨"w1", "t1", 1/2, 5, 5⟩, ⟨"w2", "t2", 1/4, 3, 3⟩] := by
  have hb1 : ¬ ("bogus" : String) = "z_score" := by decide
  have hb2 : ¬ ("bogus" : String) = "mean_shift" := by decide
  have hp1 : ¬ ("p_value" : String) = "z_score" := by decide
  have hp2 : ¬ ("p_value" : String) = "mean_shift" := by decide
  refine ⟨?_, ?_, ?_⟩
  · simp [get_dist_dict]
  · rw [rankResults, if_neg hb1, if_neg hb2]
    norm_num [pySorted, stableInsert]
  · rw [rankResults, if_neg hb1, if_neg hb2, rankResults, if_neg hp1, if_neg hp2]

/-- C10 amended: an unrecognized rank key is silently ranked exactly like
`p_value`, and an unrecognized distance measure silently computes the
neighborhood measure, with no error surfaced in either case. -/
theorem C10_fallback (rk : String) (h1 : rk ≠ "z_score")
    (h2 : rk ≠ "mean_shift") (results : List RankRow) (m : String)
    (hm : m ≠ "cosine") (vocab : List String) (inM inC : String → Bool)
    (cosD neighD : String → ℚ) :
    rankResults rk results = rankResults "p_value" results ∧
    get_dist_dict vocab inM inC cosD neighD m =
      get_dist_dict vocab inM inC cosD neighD "neighborhood" := by
  constructor
  · rw [rankResults, rankResults]
    rw [if_neg h1, if_neg h2]
    rw [if_neg (by decide : ¬ ("p_value" : String) = "z_score")]
    rw [if_neg (by decide : ¬ ("p_value" : String) = "mean_shift")]
  · rw [get_dist_dict, get_dist_dict]
    apply List.map_congr_left
    intro w _
    rw [if_neg hm, if_neg (by decide : ¬ ("neighborhood" : String) = "cosine")]

/-- Witness for the amended C10 at rank key `"bogus"` and distance measure
`"bogus"`. -/
theorem C10_fallback_witness :
    ("bogus" : String) ≠ "z_score" ∧ ("bogus" : String) ≠ "mean_shift" ∧
    ("bogus" : String) ≠ "cosine" ∧
    (rankResults "bogus" [⟨"w1", "t1", 1/2, 5, 5⟩] =
        rankResults "p_value" [⟨"w1", "t1", 1/2, 5, 5⟩] ∧
      get_dist_dict ["x"] (fun _ => true) (fun _ => true) (fun _ => 1)
          (fun _ => 2) "bogus" =
        get_dist_dict ["x"] (fun _ => true) (fun _ => true) (fun _ => 1)
          (fun _ => 2) "neighborhood") := by
  refine ⟨by decide, by decide, by decide, ?_⟩
  exact C10_fallback "bogus" (by decide) (by decide) [⟨"w1", "t1", 1/2, 5, 5⟩]
    "bogus" (by decide) ["x"] (fun _ => true) (fun _ => true) (fun _ => 1)
    (fun _ => 2)

/-- C6: a word whose z-score series has exactly one defined entry. The claim
(and the spec) says the detector returns normally with no result; the code
instead crashes: `p_value_series.min()` on the empty array raises
a `ValueError`, which is caught and printed, after which the unbound
`min_p_val` raises an uncaught `NameError` (modelled `Except.error ()`),
aborting the whole per-word loop. -/
theorem C6_single_defined_entry_crash :
    detect_change_point "w" ["t0", "t1", "t2"] [some 1, none, none] [[1]]
        5 0 "last" = Except.error () := by
  rfl

/-- C1: for a (compacted) z-score series, `N ≥ 1` drawn permutations of it,
and any comparison policy, the p-value at each split index `j` is the
fraction of the `N` permutations whose trial at `j` counts — i.e. whose
recomputed mean-shift at `j` strictly exceeds the original mean-shift at `j`,
with a NaN original mean-shift counting unconditionally (`trialHit`); in
particular, when the original mean-shift at `j` is NaN the p-value at `j`
is `1`. -/
theorem C1_permutation_test (z : List ℚ) (perms : List (List ℚ)) (c : String)
    (hn : perms ≠ []) (hperm : ∀ p ∈ perms, p.Perm z) (j : ℕ)
    (hj : j < (get_mean_shift_series z c).length) :
    (get_p_value_series (get_mean_shift_series z c) perms c).get? j =
      some (some
        (((perms.countP (fun p =>
            trialHit (get_mean_shift_series z c) (get_mean_shift_series p c) j)) : ℚ)
          / (perms.length : ℚ))) ∧
    ((get_mean_shift_series z c).get? j = some none →
      (get_p_value_series (get_mean_shift_series z c) perms c).get? j =
        some (some 1)) := by
  have hlen0 : ¬ perms.length = 0 := by
    simpa [List.length_eq_zero] using hn
  have hguard : ∀ p ∈ perms,
      hitP (get_mean_shift_series z c) c j p =
        trialHit (get_mean_shift_series z c) (get_mean_shift_series p c) j := by
    intro p hp
    have hplen : (get_mean_shift_series p c).length = (get_mean_shift_series z c).length := by
      rw [get_mean_shift_series_length, get_mean_shift_series_length,
        (hperm p hp).length_eq]
    have hjp : j < (get_mean_shift_series p c).length := by
      rw [hplen]; exact hj
    simp only [hitP, decide_eq_true_iff]
    rw [decide_eq_true hjp, Bool.true_and]
  have hcount : perms.countP (hitP (get_mean_shift_series z c) c j) =
      perms.countP (fun p =>
        trialHit (get_mean_shift_series z c) (get_mean_shift_series p c) j) :=
    List.countP_congr (fun p hp => by rw [hguard p hp])
  have hmslen : j < (get_mean_shift_series z c).length := hj
  constructor
  · rw [get_p_value_series_get? _ _ _ hmslen, if_neg hlen0, hcount]
  · intro hnan
    rw [get_p_value_series_get? _ _ _ hmslen, if_neg hlen0]
    have hall : ∀ p ∈ perms, hitP (get_mean_shift_series z c) c j p = true := by
      intro p hp
      rw [hguard p hp]
      rw [trialHit, hnan]
    have : perms.countP (hitP (get_mean_shift_series z c) c j) = perms.length :=
      List.countP_eq_length.mpr hall
    rw [this, div_self (by exact_mod_cast hlen0)]

/-- Witness for C1 at the series `[1, 2]`, the single drawn permutation
`[2, 1]`, policy `last`, split index `0`. -/
theorem C1_permutation_test_witness :
    ([[( 2 : ℚ), 1]] : List (List ℚ)) ≠ [] ∧
    (∀ p ∈ ([[(2 : ℚ), 1]] : List (List ℚ)), p.Perm [1, 2]) ∧
    0 < (get_mean_shift_series [1, 2] "last").length ∧
    ((get_p_value_series (get_mean_shift_series [1, 2] "last") [[2, 1]] "last").get? 0 =
      some (some
        (((([[(2 : ℚ), 1]] : List (List ℚ)).countP (fun p =>
            trialHit (get_mean_shift_series [1, 2] "last")
              (get_mean_shift_series p "last") 0)) : ℚ)
          / (([[(2 : ℚ), 1]] : List (List ℚ)).length : ℚ))) ∧
    ((get_mean_shift_series [1, 2] "last").get? 0 = some none →
      (get_p_value_series (get_mean_shift_series [1, 2] "last") [[2, 1]] "last").get? 0 =
        some (some 1))) := by
  have hn : ([[(2 : ℚ), 1]] : List (List ℚ)) ≠ [] := by simp
  have hperm : ∀ p ∈ ([[(2 : ℚ), 1]] : List (List ℚ)), p.Perm [1, 2] := by
    intro p hp
    rw [List.mem_singleton] at hp
    rw [hp]
    exact List.Perm.swap 1 2 []
  have hj : 0 < (get_mean_shift_series [(1 : ℚ), 2] "last").length := by
    rw [get_mean_shift_series_length]
    norm_num
  exact ⟨hn, hperm, hj, C1_permutation_test [1, 2] [[2, 1]] "last" hn hperm 0 hj⟩

/-- C9: with a fixed (compacted) z-score series and a fixed sequence of at
least one permutation draw, raising the gamma threshold from `g1` to
`g2 ≥ g1` never decreases any index's gated p-value, and the gated p-value
under any threshold is never below the ungated p-value at that index. -/
theorem C9_gamma_monotone (z : List ℚ) (perms : List (List ℚ)) (c : String)
    (g1 g2 : ℚ) (hg : g1 ≤ g2) (hn : perms ≠ []) :
    (∀ j v1 v2,
      (gate (get_p_value_series (get_mean_shift_series z c) perms c) z g1).get? j =
        some (some v1) →
      (gate (get_p_value_series (get_mean_shift_series z c) perms c) z g2).get? j =
        some (some v2) →
      v1 ≤ v2) ∧
    (∀ j q v2,
      (get_p_value_series (get_mean_shift_series z c) perms c).get? j =
        some (some q) →
      (gate (get_p_value_series (get_mean_shift_series z c) perms c) z g2).get? j =
        some (some v2) →
      q ≤ v2) := by
  have hentry : ∀ j pv,
      (get_p_value_series (get_mean_shift_series z c) perms c).get? j = some pv →
      ∃ q : ℚ, pv = some q ∧ 0 ≤ q ∧ q ≤ 1 := by
    intro j pv hp
    have hjlt : j < (get_mean_shift_series z c).length := by
      have hlt := (List.get?_eq_some.mp hp).1
      rwa [get_p_value_series_length] at hlt
    obtain ⟨q, hq, hq0, hq1⟩ :=
      get_p_value_series_entry (get_mean_shift_series z c) perms c hn hjlt
    rw [hp] at hq
    exact ⟨q, Option.some.inj hq, hq0, hq1⟩
  constructor
  · intro j v1 v2 h1 h2
    rw [gate_get?] at h1 h2
    cases hp : (get_p_value_series (get_mean_shift_series z c) perms c).get? j with
    | none => rw [hp] at h1; simp at h1
    | some pv =>
        rw [hp, Option.map_some'] at h1 h2
        obtain ⟨q, hq, hq0, hq1⟩ := hentry j pv hp
        subst hq
        have h1' := Option.some.inj h1
        have h2' := Option.some.inj h2
        cases hz : z.get? j with
        | none =>
            simp only [hz] at h1' h2'
            simp only [Option.some.injEq] at h1' h2'
            subst h1'
            subst h2'
            exact le_refl _
        | some zv =>
            simp only [hz] at h1' h2'
            by_cases hlt2 : zv < g2
            · rw [if_pos hlt2] at h2'
              simp only [Option.some.injEq] at h2'
              subst h2'
              by_cases hlt1 : zv < g1
              · rw [if_pos hlt1] at h1'
                simp only [Option.some.injEq] at h1'
                subst h1'
                exact le_refl _
              · rw [if_neg hlt1] at h1'
                simp only [Option.some.injEq] at h1'
                subst h1'
                exact hq1
            · have hlt1 : ¬ zv < g1 := fun hcon => hlt2 (lt_of_lt_of_le hcon hg)
              rw [if_neg hlt1] at h1'
              rw [if_neg hlt2] at h2'
              simp only [Option.some.injEq] at h1' h2'
              subst h1'
              subst h2'
              exact le_refl _
  · intro j q v2 hp h2
    rw [gate_get?, hp, Option.map_some'] at h2
    obtain ⟨q', hq', hq0, hq1⟩ := hentry j (some q) hp
    have hqq : q' = q := (Option.some.inj hq').symm
    subst hqq
    have h2' := Option.some.inj h2
    cases hz : z.get? j with
    | none =>
        simp only [hz] at h2'
        simp only [Option.some.injEq] at h2'
        subst h2'
        exact le_refl _
    | some zv =>
        simp only [hz] at h2'
        by_cases hlt2 : zv < g2
        · rw [if_pos hlt2] at h2'
          simp only [Option.some.injEq] at h2'
          subst h2'
          exact hq1
        · rw [if_neg hlt2] at h2'
          simp only [Option.some.injEq] at h2'
          subst h2'
          exact le_refl _

/-- Witness for C9 at the series `[1, 2]`, one draw `[2, 1]`, policy `last`,
thresholds `0 ≤ 1`. -/
theorem C9_gamma_monotone_witness :
    (0 : ℚ) ≤ 1 ∧ ([[(2 : ℚ), 1]] : List (List ℚ)) ≠ [] ∧
    ((∀ j v1 v2,
      (gate (get_p_value_series (get_mean_shift_series [1, 2] "last") [[2, 1]] "last")
          [1, 2] 0).get? j = some (some v1) →
      (gate (get_p_value_series (get_mean_shift_series [1, 2] "last") [[2, 1]] "last")
          [1, 2] 1).get? j = some (some v2) →
      v1 ≤ v2) ∧
    (∀ j q v2,
      (get_p_value_series (get_mean_shift_series [1, 2] "last") [[2, 1]] "last").get? j =
        some (some q) →
      (gate (get_p_value_series (get_mean_shift_series [1, 2] "last") [[2, 1]] "last")
          [1, 2] 1).get? j = some (some v2) →
      q ≤ v2)) := by
  refine ⟨by norm_num, by simp, ?_⟩
  exact C9_gamma_monotone [1, 2] [[2, 1]] "last" 0 1 (by norm_num) (by simp)

theorem detect_unfold_ge (word : String) (labels : List String)
    (z : List (Option ℚ)) (perms : List (List ℚ)) (pth g : ℚ) (c : String)
    (hempty : (compactLabels labels z).isEmpty = false) (mv : Option ℚ)
    (hm : npMin (gate (get_p_value_series
        (get_mean_shift_series (pyCompact z) c) perms c) (pyCompact z) g) = some mv)
    (hplt : pyLt mv pth = false) :
    detect_change_point word labels z perms pth g c = Except.ok none := by
  simp only [detect_change_point]
  rw [if_neg (by rw [hempty]; exact Bool.false_ne_true)]
  rw [hm]
  simp only [hplt, Bool.false_eq_true, if_false]

theorem detect_unfold_lt (word : String) (labels : List String)
    (z : List (Option ℚ)) (perms : List (List ℚ)) (pth g : ℚ) (c : String)
    (hempty : (compactLabels labels z).isEmpty = false) (mv : Option ℚ)
    (hm : npMin (gate (get_p_value_series
        (get_mean_shift_series (pyCompact z) c) perms c) (pyCompact z) g) = some mv)
    (hplt : pyLt mv pth = true) (cp : ℕ) (msf : Option ℚ)
    (hmax : pyMaxBySnd
        (((List.range (gate (get_p_value_series
            (get_mean_shift_series (pyCompact z) c) perms c) (pyCompact z) g).length).filter
          (fun i => pyEqOpt ((gate (get_p_value_series
            (get_mean_shift_series (pyCompact z) c) perms c) (pyCompact z) g).getD i none) mv)).map
          (fun i => (i, (get_mean_shift_series (pyCompact z) c).getD i none))) =
        some (cp, msf)) :
    detect_change_point word labels z perms pth g c =
      Except.ok (some
        { word := word
          label := (compactLabels labels z).getD cp ""
          pval := mv
          mshift := msf
          zscore := (pyCompact z).getD cp 0 }) := by
  simp only [detect_change_point]
  rw [if_neg (by rw [hempty]; exact Bool.false_ne_true)]
  rw [hm]
  simp only [hplt, if_true]
  rw [hmax]

theorem gate_entry (p0 : List (Option ℚ)) (zc : List ℚ) (g : ℚ) (j : ℕ) (q : ℚ)
    (hq : p0.get? j = some (some q)) :
    (gate p0 zc g).get? j =
      some (match zc.get? j with
        | some zv => if zv < g then some 1 else some q
        | none => some q) := by
  rw [gate_get?, hq, Option.map_some']

theorem gated_entry_bounds (z : List (Option ℚ)) (perms : List (List ℚ))
    (c : String) (g : ℚ) (hn : perms ≠ []) (j : ℕ)
    (hj : j < (get_mean_shift_series (pyCompact z) c).length) :
    ∃ w : ℚ,
      (gate (get_p_value_series (get_mean_shift_series (pyCompact z) c) perms c)
        (pyCompact z) g).get? j = some (some w) ∧ 0 ≤ w ∧ w ≤ 1 := by
  obtain ⟨q, hq, hq0, hq1⟩ :=
    get_p_value_series_entry (get_mean_shift_series (pyCompact z) c) perms c hn hj
  rw [gate_entry _ _ _ _ _ hq]
  cases hz : (pyCompact z).get? j with
  | none => exact ⟨q, rfl, hq0, hq1⟩
  | some zv =>
      by_cases hlt : zv < g
      · exact ⟨1, by simp [hlt], by norm_num, le_refl 1⟩
      · exact ⟨q, by simp [hlt], hq0, hq1⟩

theorem gated_all_some (z : List (Option ℚ)) (perms : List (List ℚ))
    (c : String) (g : ℚ) (hn : perms ≠ []) :
    ∀ o ∈ gate (get_p_value_series (get_mean_shift_series (pyCompact z) c) perms c)
        (pyCompact z) g, o.isSome = true := by
  intro o ho
  obtain ⟨j, hj⟩ := List.mem_iff_get?.mp ho
  have hjlt : j < (gate (get_p_value_series (get_mean_shift_series (pyCompact z) c) perms c)
      (pyCompact z) g).length := (List.get?_eq_some.mp hj).1
  have hjms : j < (get_mean_shift_series (pyCompact z) c).length := by
    rwa [gate_length, get_p_value_series_length] at hjlt
  obtain ⟨w, hw, _, _⟩ := gated_entry_bounds z perms c g hn j hjms
  rw [hj] at hw
  rw [Option.some.inj hw]
  rfl

/-- C2: for a word with at least two compacted z-score entries (so the
p-value series is nonempty and has a minimum) and at least one permutation
draw, with `m` the minimum of the gated p-value series: if `m` is at or
above the p-value threshold, `detect_change_point` emits no result;
otherwise it selects among the indices tied at `m` one whose mean-shift no
tied index strictly exceeds, and emits
`(word, label-at-index, m, mean-shift-at-index, z-score-at-index)`,
all read off the compacted series. -/
theorem C2_selection (word : String) (labels : List String)
    (z : List (Option ℚ)) (perms : List (List ℚ)) (pth g : ℚ) (c : String)
    (hlen : labels.length = z.length)
    (hL : 2 ≤ (pyCompact z).length)
    (hn : perms ≠ []) :
    ∃ m : ℚ,
      npMin (gate (get_p_value_series (get_mean_shift_series (pyCompact z) c) perms c)
          (pyCompact z) g) = some (some m) ∧
      (∀ j q, (gate (get_p_value_series (get_mean_shift_series (pyCompact z) c) perms c)
          (pyCompact z) g).get? j = some (some q) → m ≤ q) ∧
      (pth ≤ m →
        detect_change_point word labels z perms pth g c = Except.ok none) ∧
      (m < pth →
        ∃ i msi,
          i < (gate (get_p_value_series (get_mean_shift_series (pyCompact z) c) perms c)
              (pyCompact z) g).length ∧
          (gate (get_p_value_series (get_mean_shift_series (pyCompact z) c) perms c)
              (pyCompact z) g).get? i = some (some m) ∧
          (get_mean_shift_series (pyCompact z) c).get? i = some (some msi) ∧
          (∀ j msj,
            (gate (get_p_value_series (get_mean_shift_series (pyCompact z) c) perms c)
                (pyCompact z) g).get? j = some (some m) →
            (get_mean_shift_series (pyCompact z) c).get? j = some (some msj) →
            msj ≤ msi) ∧
          detect_change_point word labels z perms pth g c =
            Except.ok (some
              { word := word
                label := (compactLabels labels z).getD i ""
                pval := some m
                mshift := some msi
                zscore := (pyCompact z).getD i 0 })) := by
  set zc := pyCompact z with hzc
  set ms := get_mean_shift_series zc c with hms
  set p0 := get_p_value_series ms perms c with hp0
  set P := gate p0 zc g with hP
  have hmsl : ms.length = zc.length - 1 := by
    rw [hms]; exact get_mean_shift_series_length zc c
  have hp0l : p0.length = ms.length := by
    rw [hp0]; exact get_p_value_series_length ms perms c
  have hPl : P.length = p0.length := by
    rw [hP]; exact gate_length p0 zc g
  have hPpos : 0 < P.length := by omega
  have hPne : P ≠ [] := List.ne_nil_of_length_pos hPpos
  have hzcnz : ∀ x ∈ zc, x ≠ 0 := by
    rw [hzc]; exact pyCompact_ne_zero z
  have hmsdef : ∀ j, j < ms.length → ∃ v, ms.get? j = some (some v) := by
    intro j hj
    have hj' : j < zc.length - 1 := by omega
    obtain ⟨v, hv⟩ := (compute_mean_shift_defined zc c hzcnz hj').2
    refine ⟨v, ?_⟩
    rw [hms, get_mean_shift_series_get? zc c hj', hv]
  have hallsome : ∀ o ∈ P, o.isSome = true := by
    rw [hP, hp0, hms, hzc]
    exact gated_all_some z perms c g hn
  obtain ⟨m, hnp, hmmem, hmle⟩ := npMin_spec P hPne hallsome
  have hlabl : (compactLabels labels z).length = zc.length := by
    rw [hzc]; exact compactLabels_length labels z hlen
  have hempty : (compactLabels labels z).isEmpty = false := by
    apply List.isEmpty_eq_false.mpr
    intro hnil
    rw [hnil] at hlabl
    simp only [List.length_nil] at hlabl
    omega
  refine ⟨m, by rw [hP, hp0, hms, hzc] at hnp; exact hnp, ?_, ?_, ?_⟩
  · intro j q hjq
    have hmem : (some q) ∈ P := by
      rw [hP, hp0, hms, hzc]
      exact List.get?_mem hjq
    exact hmle q hmem
  · intro hge
    have hplt : pyLt (some m) pth = false := by
      simp [pyLt, not_lt.mpr hge]
    rw [hP, hp0, hms, hzc] at hnp
    exact detect_unfold_ge word labels z perms pth g c hempty (some m) hnp hplt
  · intro hlt
    obtain ⟨i0, hi0⟩ := List.mem_iff_get?.mp hmmem
    have hi0lt : i0 < P.length := (List.get?_eq_some.mp hi0).1
    have hgetD : ∀ (j : ℕ), P.getD j none = (P.get? j).getD none := fun j => rfl
    have hi0mem : i0 ∈ (List.range P.length).filter
        (fun i => pyEqOpt (P.getD i none) (some m)) := by
      rw [List.mem_filter]
      refine ⟨List.mem_range.mpr hi0lt, ?_⟩
      rw [hgetD i0, hi0]
      simp [pyEqOpt]
    have hpne : ((List.range P.length).filter
        (fun i => pyEqOpt (P.getD i none) (some m))).map
        (fun i => (i, ms.getD i none)) ≠ [] := by
      intro hnil
      rw [List.map_eq_nil] at hnil
      rw [hnil] at hi0mem
      cases hi0mem
    obtain ⟨r, hmax, hrmem, hrbest⟩ := pyMaxBySnd_spec _ hpne
    obtain ⟨i, mval⟩ := r
    rw [List.mem_map] at hrmem
    obtain ⟨i', hi'mem, hi'eq⟩ := hrmem
    have hii : i' = i := congrArg Prod.fst hi'eq
    subst hii
    have hmval : mval = ms.getD i' none := (congrArg Prod.snd hi'eq).symm
    rw [List.mem_filter, List.mem_range] at hi'mem
    obtain ⟨hilt, hieq⟩ := hi'mem
    have hPi : P.get? i' = some (some m) := by
      cases hPg : P.get? i' with
      | none =>
          exfalso
          have := List.get?_eq_none.mp hPg
          omega
      | some o =>
          cases o with
          | none =>
              rw [hgetD i', hPg] at hieq
              simp [pyEqOpt] at hieq
          | some q =>
              rw [hgetD i', hPg] at hieq
              simp only [Option.getD_some] at hieq
              have : q = m := by
                simpa [pyEqOpt] using hieq
              rw [this]
    have hims : i' < ms.length := by omega
    obtain ⟨msi, hmsi⟩ := hmsdef i' hims
    have hmval2 : mval = some msi := by
      rw [hmval, show ms.getD i' none = (ms.get? i').getD none from rfl, hmsi]
      rfl
    have htie : ∀ j msj, P.get? j = some (some m) →
        ms.get? j = some (some msj) → msj ≤ msi := by
      intro j msj hPj hmsj
      have hjlt : j < P.length := (List.get?_eq_some.mp hPj).1
      have hjind : j ∈ (List.range P.length).filter
          (fun i => pyEqOpt (P.getD i none) (some m)) := by
        rw [List.mem_filter]
        refine ⟨List.mem_range.mpr hjlt, ?_⟩
        rw [hgetD j, hPj]
        simp [pyEqOpt]
      have hjpair : (j, ms.getD j none) ∈ ((List.range P.length).filter
          (fun i => pyEqOpt (P.getD i none) (some m))).map
          (fun i => (i, ms.getD i none)) := List.mem_map_of_mem _ hjind
      have hnb := hrbest _ hjpair
      have hmsjD : ms.getD j none = some msj := by
        rw [show ms.getD j none = (ms.get? j).getD none from rfl, hmsj]
        rfl
      rw [hmsjD] at hnb
      rw [hmval2] at hnb
      simp only [pyGtOpt, decide_eq_false_iff_not, not_lt] at hnb
      exact hnb
    have hplt : pyLt (some m) pth = true := by
      simp [pyLt, hlt]
    rw [hmval2] at hmax
    refine ⟨i', msi, ?_, ?_, ?_, ?_, ?_⟩
    · rw [hP, hp0, hms, hzc] at hilt; exact hilt
    · rw [hP, hp0, hms, hzc] at hPi; exact hPi
    · rw [hms, hzc] at hmsi; exact hmsi
    · intro j msj h1 h2
      apply htie j msj
      · rw [hP, hp0, hms, hzc]; exact h1
      · rw [hms, hzc]; exact h2
    · rw [hP, hp0, hms, hzc] at hnp hmax
      exact detect_unfold_lt word labels z perms pth g c hempty (some m) hnp hplt
        i' (some msi) hmax

/-- Witness for C2 at the series `[some 1, some 2]`, labels `["t0", "t1"]`,
one draw `[2, 1]`, policy `last`, p-value threshold `2`, gamma `0`. -/
theorem C2_selection_witness :
    (["t0", "t1"] : List String).length = ([some 1, some 2] : List (Option ℚ)).length ∧
    2 ≤ (pyCompact [some 1, some 2]).length ∧
    ([[(2 : ℚ), 1]] : List (List ℚ)) ≠ [] ∧
    (∃ m : ℚ,
      npMin (gate (get_p_value_series
          (get_mean_shift_series (pyCompact [some 1, some 2]) "last") [[2, 1]] "last")
          (pyCompact [some 1, some 2]) 0) = some (some m) ∧
      (∀ j q, (gate (get_p_value_series
          (get_mean_shift_series (pyCompact [some 1, some 2]) "last") [[2, 1]] "last")
          (pyCompact [some 1, some 2]) 0).get? j = some (some q) → m ≤ q) ∧
      ((2 : ℚ) ≤ m →
        detect_change_point "w" ["t0", "t1"] [some 1, some 2] [[2, 1]] 2 0 "last" =
          Except.ok none) ∧
      (m < 2 →
        ∃ i msi,
          i < (gate (get_p_value_series
              (get_mean_shift_series (pyCompact [some 1, some 2]) "last") [[2, 1]] "last")
              (pyCompact [some 1, some 2]) 0).length ∧
          (gate (get_p_value_series
              (get_mean_shift_series (pyCompact [some 1, some 2]) "last") [[2, 1]] "last")
              (pyCompact [some 1, some 2]) 0).get? i = some (some m) ∧
          (get_mean_shift_series (pyCompact [some 1, some 2]) "last").get? i =
            some (some msi) ∧
          (∀ j msj,
            (gate (get_p_value_series
                (get_mean_shift_series (pyCompact [some 1, some 2]) "last") [[2, 1]] "last")
                (pyCompact [some 1, some 2]) 0).get? j = some (some m) →
            (get_mean_shift_series (pyCompact [some 1, some 2]) "last").get? j =
              some (some msj) →
            msj ≤ msi) ∧
          detect_change_point "w" ["t0", "t1"] [some 1, some 2] [[2, 1]] 2 0 "last" =
            Except.ok (some
              { word := "w"
                label := (compactLabels ["t0", "t1"] [some 1, some 2]).getD i ""
                pval := some m
                mshift := some msi
                zscore := (pyCompact [some 1, some 2]).getD i 0 }))) := by
  have h1 : (["t0", "t1"] : List String).length =
      ([some 1, some 2] : List (Option ℚ)).length := rfl
  have h2 : 2 ≤ (pyCompact [some 1, some 2]).length := by
    have ht1 : truthy (some (1 : ℚ)) = true := by simp [truthy]
    have ht2 : truthy (some (2 : ℚ)) = true := by simp [truthy]
    simp [pyCompact, List.filterMap_cons, ht1, ht2]
  have h3 : ([[(2 : ℚ), 1]] : List (List ℚ)) ≠ [] := by simp
  exact ⟨h1, h2, h3,
    C2_selection "w" ["t0", "t1"] [some 1, some 2] [[2, 1]] 2 0 "last" h1 h2 h3⟩
